import Mathlib

/-!
Verification of the MoCapsNet repository (capsule network with optional
residual / momentum-residual connections) against its natural-language
specification.  The Python sources `main.py`, `model.py` and `trainer.py`
are shallowly embedded below; the bodies of `capsules.py` (squash,
PrimaryCapsules, RoutingCapsules) and `loss.py` (CapsuleLoss) are not part
of the available sources, so those components are modelled from the spec
where a claim depends on them.
-/

/-! ## ResCapsBlock (model.py, lines 13-34) -/

/-- Shallow embedding of `ResCapsBlock.forward` (model.py lines 28-34):
the block iterates over its list of sub-layers and, when `skip` is set,
applies the additive shortcut around each sub-layer separately
(`x = x + f(x)` inside the loop); otherwise it applies the layer plainly.
`add` stands for the tensor addition used by `x + f(x)`. -/
def resCapsBlockForward {α : Type} (add : α → α → α) (skip : Bool)
    (fs : List (α → α)) (x : α) : α :=
  fs.foldl (fun y f => if skip then add y (f y) else f y) x

/-- Configuration of one `RoutingCapsules` layer as passed to its
constructor: `RoutingCapsules(in_dim, in_caps, out_caps, out_dim,
num_routing)`. -/
structure RoutingCfg where
  in_dim : ℕ
  in_caps : ℕ
  out_caps : ℕ
  out_dim : ℕ
  num_routing : ℕ
  deriving DecidableEq, Repr

/-- Configuration produced by `ResCapsBlock.__init__` (model.py lines
14-26): it records the `skip` flag and builds two identical
`RoutingCapsules(in_dim, in_caps, num_classes, out_dim, num_routing)`
layers.  The constructor performs no validation of any kind. -/
structure ResCapsBlockCfg where
  skip : Bool
  layers : List RoutingCfg
  deriving DecidableEq, Repr

/-- Shallow embedding of `ResCapsBlock.__init__` (model.py lines 14-26):
sets `self.skip` and creates the two routing sub-layers.  There is no
shape check anywhere in the constructor body. -/
def resCapsBlockInit (in_dim in_caps num_classes out_dim num_routing : ℕ)
    (skip : Bool) : ResCapsBlockCfg :=
  { skip := skip
    layers := (List.range 2).map
      (fun _ => ⟨in_dim, in_caps, num_classes, out_dim, num_routing⟩) }

/-- `ResCapsBlock` construction viewed as a fallible operation (a Python
constructor can raise).  Since `ResCapsBlock.__init__` contains no check
and no raise, construction always succeeds. -/
def resCapsBlockConstruct (in_dim in_caps num_classes out_dim num_routing : ℕ)
    (skip : Bool) : Except String ResCapsBlockCfg :=
  Except.ok (resCapsBlockInit in_dim in_caps num_classes out_dim num_routing skip)

/-! ## Trainer per-epoch loss bookkeeping (trainer.py, lines 105-148) -/

/-- Shallow embedding of the per-phase batch loop bookkeeping in
`CapsNetTrainer.run` (trainer.py lines 102-122): starting from
`running_loss = 0.0`, the loop `for i, (images, labels) in
enumerate(loader)` accumulates `running_loss += loss.item()` and leaves
`i` bound to the index of the last batch.  Given the list of per-batch
loss values, returns the final `(running_loss, i)` pair. -/
def epochLoop (losses : List ℚ) : ℚ × ℕ :=
  losses.enum.foldl (fun acc bi => (acc.1 + bi.2, bi.1)) (0, 0)

/-- Shallow embedding of the value appended to the loss history
(trainer.py lines 144 and 147): `running_loss/(i+i)` with `i` the final
batch index left by the enumeration loop. -/
def recordedEpochLoss (losses : List ℚ) : ℚ :=
  (epochLoop losses).1 / (((epochLoop losses).2 : ℚ) + ((epochLoop losses).2 : ℚ))

/-! ## CapsuleLoss as constructed by the trainer (trainer.py line 62) -/

/-- Modelled from the spec: the margin loss of `CapsuleLoss` (loss.py is
not among the available sources).  Per class `k`:
`T_k * max(0, 0.9 - s_k)^2 + lambda * (1 - T_k) * max(0, s_k - 0.1)^2`,
summed over classes, where `s_k` is the predicted class score (capsule
length) and `T_k` the one-hot target entry. -/
def marginLossRow (lam : ℚ) (T s : List ℚ) : ℚ :=
  ((List.zip T s).map
    (fun p => p.1 * (max 0 (9/10 - p.2))^2 + lam * (1 - p.1) * (max 0 (p.2 - 1/10))^2)).sum

/-- Modelled from the spec: margin loss summed over classes and averaged
over the batch. -/
def marginLoss (lam : ℚ) (targets scores : List (List ℚ)) : ℚ :=
  (((List.zip targets scores).map (fun p => marginLossRow lam p.1 p.2)).sum)
    / (targets.length : ℚ)

/-- Modelled from the spec: mean squared error between the original and
reconstructed images (elementwise, averaged over all entries). -/
def mseLoss (xs ys : List ℚ) : ℚ :=
  (((List.zip xs ys).map (fun p => (p.1 - p.2)^2)).sum) / (xs.length : ℚ)

/-- Modelled from the spec: the total `CapsuleLoss` with down-weighting
factor `lam` and reconstruction scale `scale`:
`margin_loss + scale * reconstruction_MSE`. -/
def capsuleLoss (lam scale : ℚ) (scores targets : List (List ℚ))
    (images recons : List ℚ) : ℚ :=
  marginLoss lam targets scores + scale * mseLoss images recons

/-- The criterion object built by `CapsNetTrainer.__init__` (trainer.py
line 62): `CapsuleLoss(loss_lambda=0.5, recon_loss_scale=5e-4)`. -/
def trainerCriterion (scores targets : List (List ℚ)) (images recons : List ℚ) : ℚ :=
  capsuleLoss (1/2) (5/10000) scores targets images recons

/-! ## CLI arguments and model construction (main.py, model.py lines 37-74) -/

/-- The command-line argument record, restricted to the fields that the
model-construction and model-naming code reads (main.py lines 27-85).
`modelname` models the dynamically added `args.modelname` attribute:
`none` means the attribute was never assigned. -/
structure Args where
  num_routing : ℕ
  num_res_blocks : ℕ
  residual : Bool
  momentum : Bool
  num_caps : ℕ
  modelname : Option String
  deriving DecidableEq, Repr

/-- Shallow embedding of the `args.modelname` assignment chain (main.py
lines 80-85): an `if`/`elif`/`elif` with no final `else`, so the
combination `momentum and not residual` assigns nothing. -/
def modelnameAssign (residual momentum : Bool) (num_res_blocks : ℕ) : Option String :=
  if !residual && !momentum then some ("CapsNet_" ++ toString num_res_blocks)
  else if residual && !momentum then some ("ResCapsNet_" ++ toString num_res_blocks)
  else if residual && momentum then some ("MoCapsNet_" ++ toString num_res_blocks)
  else none

/-- The argument record after main.py lines 80-85 have run. -/
def mainArgsModelname (a : Args) : Args :=
  { a with modelname := modelnameAssign a.residual a.momentum a.num_res_blocks }

/-- Static configuration produced by `CapsuleNetwork.__init__` (model.py
lines 38-74): the conv stem, the primary-capsule count, the two routing
stages, the residual blocks and the decoder layer sizes. -/
structure CapsuleNetworkCfg where
  conv_in : ℕ
  conv_out : ℕ
  kernel : ℕ
  primary_caps : ℕ
  caps1 : RoutingCfg
  blocks : List ResCapsBlockCfg
  caps2 : RoutingCfg
  decoderDims : List (ℕ × ℕ)
  deriving DecidableEq, Repr

/-- Shallow embedding of `CapsuleNetwork.__init__` (model.py lines 38-74)
at the level of layer configuration.  The intermediate capsule count of
stage 1, of every residual block, and of the input to stage 2 is the
hard-coded literal `32`; the constructor reads `args.num_routing`,
`args.num_res_blocks` and `args.residual` and nothing else from `args`.
The image shape is `(c, h, w)`. -/
def capsuleNetworkInit (args : Args) (img : ℕ × ℕ × ℕ)
    (channels primary_dim num_classes out_dim kernel_size : ℕ) : CapsuleNetworkCfg :=
  { conv_in := img.1
    conv_out := channels
    kernel := kernel_size
    primary_caps :=
      channels / primary_dim * (img.2.1 - 2*(kernel_size-1))
        * (img.2.2 - 2*(kernel_size-1)) / 4
    caps1 :=
      ⟨primary_dim,
       channels / primary_dim * (img.2.1 - 2*(kernel_size-1))
         * (img.2.2 - 2*(kernel_size-1)) / 4,
       32, primary_dim, args.num_routing⟩
    blocks := (List.range args.num_res_blocks).map
      (fun _ => resCapsBlockInit primary_dim 32 32 primary_dim args.num_routing args.residual)
    caps2 := ⟨primary_dim, 32, num_classes, out_dim, args.num_routing⟩
    decoderDims := [(out_dim * num_classes, 512), (512, 1024), (1024, img.1 * img.2.1 * img.2.2)] }

/-- The state built by a successful `CapsNetTrainer.__init__`. -/
structure TrainerState where
  modelname : String
  net : CapsuleNetworkCfg
  deriving DecidableEq, Repr

/-- Shallow embedding of the prefix of `CapsNetTrainer.__init__`
(trainer.py lines 33-45) relevant to attribute lookup order: line 39
reads `args.modelname` (raising `AttributeError` when the attribute was
never assigned) strictly before line 44 constructs the
`CapsuleNetwork`.  The error branch therefore contains no model. -/
def capsNetTrainerInit (a : Args) (img : ℕ × ℕ × ℕ) (num_classes : ℕ) :
    Except String TrainerState :=
  match a.modelname with
  | none => Except.error ("AttributeError: args has no attribute modelname")
  | some mn => Except.ok { modelname := mn, net := capsuleNetworkInit a img 256 8 num_classes 16 9 }

/-! ## Real-valued tensors and vector operations -/

/-- Elementwise addition of two capsule vectors (torch `+` on matching
last-axis vectors). -/
def vadd (a b : List ℝ) : List ℝ := List.zipWith (· + ·) a b

/-- Elementwise addition of two capsule tensors (torch `+` on matching
`[caps, dim]` slices), used by the residual shortcut `x + f(x)`. -/
def tadd (a b : List (List ℝ)) : List (List ℝ) := List.zipWith vadd a b

/-- Scalar multiplication of a vector. -/
def vscale (c : ℝ) (v : List ℝ) : List ℝ := v.map (fun t => c * t)

/-- Dot product of two vectors. -/
def dotV (a b : List ℝ) : ℝ := (List.zipWith (· * ·) a b).sum

/-- Sum of squares of the entries of a vector. -/
def sumSq (v : List ℝ) : ℝ := (v.map (fun t => t * t)).sum

/-- Euclidean norm of a last-axis vector, as computed by
`torch.norm(out, dim=-1)`: the square root of the sum of squares. -/
noncomputable def vnorm (v : List ℝ) : ℝ := Real.sqrt (sumSq v)

/-- Modelled from the spec: the `squash` non-linearity (its body lives in
capsules.py, which is not among the available sources).  Spec 4.1:
`v = (norm^2 / (1 + norm^2)) * (s / norm)` with the norm clamped away
from exactly 0 by a small epsilon, so the division is guarded. -/
noncomputable def squash (eps : ℝ) (s : List ℝ) : List ℝ :=
  vscale (vnorm s ^ 2 / (1 + vnorm s ^ 2) / max (vnorm s) eps) s

/-! ## Arg-max, one-hot selection and reconstruction masking
(model.py, lines 91-96) -/

/-- Index of the first maximal element of a list, matching the tie-break
of `tensor.max(dim)` (the index of the first occurrence of the maximum,
i.e. the lowest index wins).  Returns 0 on the empty list. -/
def argmaxIdx {α : Type} [LinearOrder α] : List α → ℕ
  | [] => 0
  | a :: rest =>
      if rest.getD (argmaxIdx rest) a > a then argmaxIdx rest + 1 else 0

/-- Row `j` of the `K × K` identity matrix `torch.eye(K)`, as selected by
`y.index_select(dim=0, index=max_length_idx)` (model.py lines 93-94). -/
def oneHot (K j : ℕ) : List ℝ :=
  (List.range K).map (fun k => if k = j then (1 : ℝ) else 0)

/-- The broadcast product `out * y` (model.py line 96) for one example:
capsule `k` is scaled by the selection weight `y[k]`. -/
def maskCaps (y : List ℝ) (caps : List (List ℝ)) : List (List ℝ) :=
  (List.zip caps y).map (fun p => p.1.map (fun v => v * p.2))

/-! ## Dense layers and the decoder (model.py, lines 67-74) -/

/-- Rectified linear unit applied elementwise to a vector. -/
def reluV (v : List ℝ) : List ℝ := v.map (fun t => max 0 t)

/-- One `nn.Linear(inF, outF)` layer applied to one example: output entry
`j` is `bias j + sum_i W j i * x_i`. -/
def linearMap (W : ℕ → ℕ → ℝ) (bias : ℕ → ℝ) (outF : ℕ) (x : List ℝ) : List ℝ :=
  (List.range outF).map (fun j => bias j + (x.enum.map (fun p => W j p.1 * p.2)).sum)

/-- The logistic sigmoid used by the decoder's output layer. -/
noncomputable def sigmoid (t : ℝ) : ℝ := 1 / (1 + Real.exp (-t))

/-! ## Routing by agreement (modelled from spec 4.3; the body of
`RoutingCapsules` lives in capsules.py, which is not among the available
sources) -/

/-- Softmax of a row of coupling logits over the out-capsule axis. -/
noncomputable def softmaxRow (l : List ℝ) : List ℝ :=
  l.map (fun t => Real.exp t / (l.map Real.exp).sum)

/-- Application of one `out_dim × in_dim` transformation matrix to an
input capsule vector. -/
def matVec (M : ℕ → ℕ → ℝ) (outDim : ℕ) (v : List ℝ) : List ℝ :=
  (List.range outDim).map (fun r => (v.enum.map (fun p => M r p.1 * p.2)).sum)

/-- Modelled from the spec: one routing iteration (spec 4.3, step 3a-3c).
From the coupling logits it computes `c = softmax(b)` over the
out-capsule axis, the weighted sums `s[j] = sum_i c[i][j] * u_hat[i][j]`,
and the squashed outputs `v[j] = squash(s[j])`. -/
noncomputable def routeOnce (uhat : List (List (List ℝ))) (outCaps outDim : ℕ)
    (eps : ℝ) (blog : List (List ℝ)) : List (List ℝ) :=
  ((List.range outCaps).map (fun j =>
    ((List.zip (blog.map softmaxRow) uhat).map
      (fun p => vscale (p.1.getD j 0) (p.2.getD j []))).foldl vadd
      (List.replicate outDim 0))).map (squash eps)

/-- Modelled from the spec: the agreement update (spec 4.3, step 3d):
`b[i][j] += u_hat[i][j] . v[j]`. -/
noncomputable def updateLogits (blog : List (List ℝ)) (uhat : List (List (List ℝ)))
    (v : List (List ℝ)) : List (List ℝ) :=
  (List.zip blog uhat).map
    (fun p => p.1.enum.map (fun q => q.2 + dotV (p.2.getD q.1 []) (v.getD q.1 [])))

/-- Modelled from the spec: the routing iteration loop (spec 4.3, step
3): exactly `numRouting` iterations, with the logit update skipped on the
final iteration (its effect is never used). -/
noncomputable def routingIters (uhat : List (List (List ℝ))) (outCaps outDim : ℕ)
    (eps : ℝ) : ℕ → List (List ℝ) → List (List ℝ)
  | 0, _ => []
  | 1, blog => routeOnce uhat outCaps outDim eps blog
  | n + 2, blog =>
      routingIters uhat outCaps outDim eps (n + 1)
        (updateLogits blog uhat (routeOnce uhat outCaps outDim eps blog))

/-- Modelled from the spec: the forward pass of one `RoutingCapsules`
layer on one example (spec 4.3): compute the prediction vectors
`u_hat[i][j] = W[j][i] . x[i]` once, initialise the coupling logits to
zero, then run the routing loop. -/
noncomputable def routingForward (W : ℕ → ℕ → ℕ → ℕ → ℝ) (outCaps outDim numRouting : ℕ)
    (eps : ℝ) (x : List (List ℝ)) : List (List ℝ) :=
  routingIters
    (x.enum.map (fun p => (List.range outCaps).map (fun j => matVec (W j p.1) outDim p.2)))
    outCaps outDim eps numRouting
    (x.map (fun _ => List.replicate outCaps (0 : ℝ)))

/-! ## CapsuleNetwork forward pass (model.py, lines 37-99) -/

/-- Functional model of a constructed `CapsuleNetwork` (model.py lines
38-74): its learned parameters and configuration.  `conv1` (the learned
convolution stem, applied per example) and `primary` (the
`PrimaryCapsules` layer of capsules.py, absent from the available
sources; per spec 4.2 a single-pass per-example map producing a capsule
list) are kept as abstract per-example functions; the routing stages and
the decoder are given by their weights.  `blocksW` holds the two routing
weight tensors of each `ResCapsBlock`; `residual` is the block's skip
flag. -/
structure CapsuleNetM (Img : Type) where
  numClasses : ℕ
  imgShape : List ℕ
  primaryDim : ℕ
  outDim : ℕ
  numRouting : ℕ
  eps : ℝ
  residual : Bool
  conv1 : Img → List ℝ
  primary : List ℝ → List (List ℝ)
  caps1W : ℕ → ℕ → ℕ → ℕ → ℝ
  blocksW : List ((ℕ → ℕ → ℕ → ℕ → ℝ) × (ℕ → ℕ → ℕ → ℕ → ℝ))
  caps2W : ℕ → ℕ → ℕ → ℕ → ℝ
  decW1 : ℕ → ℕ → ℝ
  decB1 : ℕ → ℝ
  decW2 : ℕ → ℕ → ℝ
  decB2 : ℕ → ℝ
  decW3 : ℕ → ℕ → ℝ
  decB3 : ℕ → ℝ

/-- Stem of `CapsuleNetwork.forward` (model.py lines 78-81):
`conv1`, `relu`, `primary`, then routing stage 1 into 32 capsules of
dimension `primaryDim`, each stage applied across the batch. -/
noncomputable def CapsuleNetM.caps1Out {Img : Type} (net : CapsuleNetM Img)
    (x : List Img) : List (List (List ℝ)) :=
  (((x.map net.conv1).map reluV).map net.primary).map
    (routingForward net.caps1W 32 net.primaryDim net.numRouting net.eps)

/-- One `ResCapsBlock` of the network as a batch-level function: each
example runs `resCapsBlockForward` over the block's two routing layers
(model.py lines 58-61: `ResCapsBlock(primary_dim, 32, 32, primary_dim,
num_routing, args.residual)`). -/
noncomputable def CapsuleNetM.blockFun {Img : Type} (net : CapsuleNetM Img)
    (bw : (ℕ → ℕ → ℕ → ℕ → ℝ) × (ℕ → ℕ → ℕ → ℕ → ℝ)) :
    List (List (List ℝ)) → List (List (List ℝ)) :=
  fun t => t.map (resCapsBlockForward tadd net.residual
    [routingForward bw.1 32 net.primaryDim net.numRouting net.eps,
     routingForward bw.2 32 net.primaryDim net.numRouting net.eps])

/-- The block loop of `CapsuleNetwork.forward` (model.py lines 83-86):
runs the residual blocks in order, appending each block's output to the
`layers` list.  Returns the final activation and the collected list. -/
noncomputable def CapsuleNetM.blocksRun {Img : Type} (net : CapsuleNetM Img)
    (x : List Img) : List (List (List ℝ)) × List (List (List (List ℝ))) :=
  net.blocksW.foldl (fun p bw => (net.blockFun bw p.1, p.2 ++ [net.blockFun bw p.1]))
    (net.caps1Out x, [])

/-- Routing stage 2 (model.py line 88): `numClasses` output capsules of
dimension `outDim`. -/
noncomputable def CapsuleNetM.caps2Out {Img : Type} (net : CapsuleNetM Img)
    (x : List Img) : List (List (List ℝ)) :=
  (net.blocksRun x).1.map
    (routingForward net.caps2W net.numClasses net.outDim net.numRouting net.eps)

/-- The class predictions (model.py line 89):
`preds = torch.norm(out, dim=-1)`, the Euclidean norm of each output
capsule. -/
noncomputable def CapsuleNetM.predsOut {Img : Type} (net : CapsuleNetM Img)
    (x : List Img) : List (List ℝ) :=
  (net.caps2Out x).map (fun caps => caps.map vnorm)

/-- The decoder (model.py lines 67-74) applied to one flattened masked
capsule vector: `Linear(outDim*numClasses, 512)`, ReLU,
`Linear(512, 1024)`, ReLU, `Linear(1024, prod imgShape)`, sigmoid. -/
noncomputable def decoderForward {Img : Type} (net : CapsuleNetM Img)
    (v : List ℝ) : List ℝ :=
  (linearMap net.decW3 net.decB3 net.imgShape.prod
    (reluV (linearMap net.decW2 net.decB2 1024
      (reluV (linearMap net.decW1 net.decB1 512 v))))).map sigmoid

/-- The reconstruction path (model.py lines 91-97): for each example,
take the arg-max of the predicted lengths, select the one-hot row of
`torch.eye(numClasses)` at that index, mask the output capsules with it,
flatten, and decode. -/
noncomputable def CapsuleNetM.reconOut {Img : Type} (net : CapsuleNetM Img)
    (x : List Img) : List (List ℝ) :=
  (List.zip (net.predsOut x) (net.caps2Out x)).map
    (fun p => decoderForward net
      (List.flatten (maskCaps (oneHot net.numClasses (argmaxIdx p.1)) p.2)))

/-- `CapsuleNetwork.forward` (model.py lines 76-99): returns the triple
`(preds, reconstructions, layers)`. -/
noncomputable def CapsuleNetM.forward {Img : Type} (net : CapsuleNetM Img)
    (x : List Img) :
    List (List ℝ) × List (List ℝ) × List (List (List (List ℝ))) :=
  (net.predsOut x, net.reconOut x, (net.blocksRun x).2)

/-- A small concrete network used to instantiate the hypotheses of the
theorems below: one class, one routing iteration, no residual blocks,
all weights zero. -/
noncomputable def sampleNet : CapsuleNetM Unit :=
  { numClasses := 1
    imgShape := [1, 1, 1]
    primaryDim := 1
    outDim := 1
    numRouting := 1
    eps := 1
    residual := false
    conv1 := fun _ => []
    primary := fun _ => [[0]]
    caps1W := fun _ _ _ _ => 0
    blocksW := []
    caps2W := fun _ _ _ _ => 0
    decW1 := fun _ _ => 0
    decB1 := fun _ => 0
    decW2 := fun _ _ => 0
    decB2 := fun _ => 0
    decW3 := fun _ _ => 0
    decB3 := fun _ => 0 }

/-! ## Theorems: residual block forward contract (C1) -/

/-- C1 counterexample: with skip enabled the block does not return
`x + f2(f1(x))`.  At `f1 = f2 = (fun n => n + 1)` and `x = 0` the code's
per-layer shortcut loop returns `3`, while `x + f2(f1(x)) = 2`. -/
theorem c1_skip_pair_shortcut_counterexample :
    ¬ (resCapsBlockForward (fun a b => a + b) true
        [fun n => n + 1, fun n => n + 1] (0 : ℤ)
      = 0 + ((0 + 1) + 1)) := by
  decide

/-- C1 amended: `ResCapsBlock.forward` applies the additive shortcut
around each of its two sub-layers separately when skip is enabled:
`output = x2` where `x1 = x + f1(x)` and `x2 = x1 + f2(x1)`; with skip
disabled it returns the plain composition `f2(f1(x))`. -/
theorem c1_per_layer_shortcut {α : Type} (add : α → α → α) (f1 f2 : α → α) (x : α) :
    resCapsBlockForward add true [f1, f2] x
        = add (add x (f1 x)) (f2 (add x (f1 x)))
      ∧ resCapsBlockForward add false [f1, f2] x = f2 (f1 x) :=
  ⟨rfl, rfl⟩

/-! ## Theorems: per-epoch loss bookkeeping (C2) -/

/-- The enumeration loop accumulates the sum of the batch losses and
leaves the loop index at `length - 1`. -/
theorem epochLoop_eq (losses : List ℚ) (h : losses ≠ []) :
    epochLoop losses = (losses.sum, losses.length - 1) := by
  have key : ∀ (l : List ℚ) (k : ℕ) (s : ℚ) (j : ℕ), l ≠ [] →
      (l.enumFrom k).foldl (fun acc bi => (acc.1 + bi.2, bi.1)) (s, j)
        = (s + l.sum, k + l.length - 1) := by
    intro l
    induction l with
    | nil => intro k s j hl; exact absurd rfl hl
    | cons a t ih =>
      intro k s j _
      by_cases ht : t = []
      · subst ht; simp [List.enumFrom]
      · simp only [List.enumFrom, List.foldl, List.sum_cons, List.length_cons]
        rw [ih (k + 1) (s + a) k ht]
        simp only [Prod.mk.injEq]
        constructor
        · ring
        · omega
  have h0 : losses.enum = losses.enumFrom 0 := rfl
  rw [epochLoop, h0, key losses 0 0 0 h]
  simp

/-- C2: the per-epoch loss value recorded in the history equals the
accumulated running loss divided by `(i+i)` where `i` is the final batch
index (`length - 1`), i.e. by twice the final batch index rather than by
the number of batches. -/
theorem c2_recorded_loss_divides_by_twice_final_index
    (losses : List ℚ) (h : losses ≠ []) :
    recordedEpochLoss losses
      = losses.sum
        / (((losses.length - 1 : ℕ) : ℚ) + ((losses.length - 1 : ℕ) : ℚ)) := by
  rw [recordedEpochLoss, epochLoop_eq losses h]

/-- C2 witness: a two-batch epoch with losses 2 and 4 records
`6 / (1 + 1) = 3`, dividing by twice the final batch index 1. -/
theorem c2_recorded_loss_witness :
    recordedEpochLoss [2, 4]
      = ([(2 : ℚ), 4].sum)
        / ((([(2 : ℚ), 4].length - 1 : ℕ) : ℚ) + (([(2 : ℚ), 4].length - 1 : ℕ) : ℚ)) :=
  c2_recorded_loss_divides_by_twice_final_index [2, 4] (by decide)

/-! ## Theorems: residual block construction has no shape validation (C3) -/

/-- C3 counterexample: constructing a `ResCapsBlock` whose input capsule
count (2) differs from its output capsule count (3) does not fail: the
constructor returns a block whose two layers both map 2 capsules to 3
capsules, and no configuration error is raised. -/
theorem c3_mismatched_construction_succeeds :
    resCapsBlockConstruct 8 2 3 8 3 true
        = Except.ok (resCapsBlockInit 8 2 3 8 3 true)
      ∧ (resCapsBlockInit 8 2 3 8 3 true).layers.map (fun c => (c.in_caps, c.out_caps))
        = [(2, 3), (2, 3)] :=
  ⟨rfl, rfl⟩

/-- C3 amended: `ResCapsBlock.__init__` performs no validation at all:
construction succeeds for every combination of capsule counts and
dimensions, mismatched or not, and simply records two
`in_caps -> num_classes` routing layers; a shape mismatch can only
surface later, at forward time. -/
theorem c3_construction_never_fails
    (in_dim in_caps num_classes out_dim num_routing : ℕ) (skip : Bool) :
    resCapsBlockConstruct in_dim in_caps num_classes out_dim num_routing skip
        = Except.ok (resCapsBlockInit in_dim in_caps num_classes out_dim num_routing skip)
      ∧ (resCapsBlockInit in_dim in_caps num_classes out_dim num_routing skip).layers
        = [⟨in_dim, in_caps, num_classes, out_dim, num_routing⟩,
           ⟨in_dim, in_caps, num_classes, out_dim, num_routing⟩] :=
  ⟨rfl, rfl⟩

/-! ## Theorems: trainer loss criterion constants (C8) -/

/-- C8: the trainer's criterion is `CapsuleLoss` with down-weighting
factor `lambda = 0.5` and reconstruction scale `5e-4 = 5/10000`, so the
total training loss is the margin loss plus `5e-4` times the
reconstruction mean squared error. -/
theorem c8_trainer_criterion_constants
    (scores targets : List (List ℚ)) (images recons : List ℚ) :
    trainerCriterion scores targets images recons
      = marginLoss (1/2) targets scores + (5/10000) * mseLoss images recons :=
  rfl

/-! ## Theorems: `--num_caps` is never read by model construction (C9) -/

/-- C9: two argument records that agree on the fields model construction
actually reads (`num_routing`, `num_res_blocks`, `residual`) produce
identical networks regardless of their `num_caps` values, and the
intermediate capsule count between routing stage 1, the residual blocks,
and routing stage 2 is the hard-coded constant 32. -/
theorem c9_num_caps_never_read (a b : Args) (img : ℕ × ℕ × ℕ)
    (channels primary_dim num_classes out_dim kernel_size : ℕ)
    (h1 : a.num_routing = b.num_routing)
    (h2 : a.num_res_blocks = b.num_res_blocks)
    (h3 : a.residual = b.residual) :
    capsuleNetworkInit a img channels primary_dim num_classes out_dim kernel_size
        = capsuleNetworkInit b img channels primary_dim num_classes out_dim kernel_size
      ∧ (capsuleNetworkInit a img channels primary_dim num_classes out_dim kernel_size).caps1.out_caps = 32
      ∧ (capsuleNetworkInit a img channels primary_dim num_classes out_dim kernel_size).caps2.in_caps = 32
      ∧ ∀ blk ∈ (capsuleNetworkInit a img channels primary_dim num_classes out_dim kernel_size).blocks,
          ∀ rc ∈ blk.layers, rc.in_caps = 32 ∧ rc.out_caps = 32 := by
  refine ⟨?_, rfl, rfl, ?_⟩
  · simp only [capsuleNetworkInit, h1, h2, h3]
  · intro blk hblk rc hrc
    simp only [capsuleNetworkInit, List.mem_map] at hblk
    obtain ⟨i, _, hi⟩ := hblk
    rw [← hi] at hrc
    simp only [resCapsBlockInit, List.mem_map] at hrc
    obtain ⟨i2, _, hi2⟩ := hrc
    rw [← hi2]
    exact ⟨rfl, rfl⟩

/-- C9 witness: two concrete argument records differing only in
`num_caps` (32 versus 7) build identical networks with the intermediate
capsule count 32. -/
theorem c9_num_caps_never_read_witness :
    capsuleNetworkInit ⟨3, 1, true, false, 32, none⟩ (1, 28, 28) 256 8 10 16 9
        = capsuleNetworkInit ⟨3, 1, true, false, 7, none⟩ (1, 28, 28) 256 8 10 16 9
      ∧ (capsuleNetworkInit ⟨3, 1, true, false, 32, none⟩ (1, 28, 28) 256 8 10 16 9).caps1.out_caps = 32
      ∧ (capsuleNetworkInit ⟨3, 1, true, false, 32, none⟩ (1, 28, 28) 256 8 10 16 9).caps2.in_caps = 32
      ∧ ∀ blk ∈ (capsuleNetworkInit ⟨3, 1, true, false, 32, none⟩ (1, 28, 28) 256 8 10 16 9).blocks,
          ∀ rc ∈ blk.layers, rc.in_caps = 32 ∧ rc.out_caps = 32 :=
  c9_num_caps_never_read ⟨3, 1, true, false, 32, none⟩ ⟨3, 1, true, false, 7, none⟩
    (1, 28, 28) 256 8 10 16 9 rfl rfl rfl

/-! ## Theorems: missing modelname branch (C10) -/

/-- C10: when `--momentum` is set and `--residual` is not, no branch of
main.py lines 80-85 assigns `args.modelname`, so `CapsNetTrainer`
construction fails with a missing-attribute error (raised when trainer.py
line 39 reads the attribute, before the model is built at line 44); in
each of the other three flag combinations `modelname` is assigned. -/
theorem c10_momentum_without_residual_fails (a : Args) (img : ℕ × ℕ × ℕ)
    (num_classes : ℕ) (hres : a.residual = false) (hmom : a.momentum = true) :
    modelnameAssign a.residual a.momentum a.num_res_blocks = none
      ∧ capsNetTrainerInit (mainArgsModelname a) img num_classes
          = Except.error ("AttributeError: args has no attribute modelname")
      ∧ (∀ (res mom : Bool) (n : ℕ), res = true ∨ mom = false →
          (modelnameAssign res mom n).isSome = true) := by
  refine ⟨?_, ?_, ?_⟩
  · rw [hres, hmom]; rfl
  · simp [capsNetTrainerInit, mainArgsModelname, hres, hmom, modelnameAssign]
  · intro res mom n h
    cases res <;> cases mom <;> simp_all [modelnameAssign]

/-- C10 witness: at concrete arguments with `momentum` set and
`residual` unset, trainer construction returns the missing-attribute
error, and the other three combinations all assign a model name. -/
theorem c10_momentum_without_residual_fails_witness :
    modelnameAssign (Args.residual ⟨3, 1, false, true, 32, none⟩)
        (Args.momentum ⟨3, 1, false, true, 32, none⟩)
        (Args.num_res_blocks ⟨3, 1, false, true, 32, none⟩) = none
      ∧ capsNetTrainerInit (mainArgsModelname ⟨3, 1, false, true, 32, none⟩) (1, 28, 28) 10
          = Except.error ("AttributeError: args has no attribute modelname")
      ∧ (∀ (res mom : Bool) (n : ℕ), res = true ∨ mom = false →
          (modelnameAssign res mom n).isSome = true) :=
  c10_momentum_without_residual_fails ⟨3, 1, false, true, 32, none⟩ (1, 28, 28) 10 rfl rfl

/-! ## Theorems: squash boundedness (C7) -/

/-- The sum of squares of a real vector is nonnegative. -/
theorem sumSq_nonneg (v : List ℝ) : 0 ≤ sumSq v := by
  induction v with
  | nil => simp [sumSq]
  | cons a t ih =>
    simp only [sumSq, List.map_cons, List.sum_cons] at ih ⊢
    nlinarith [mul_self_nonneg a]

/-- Scaling a vector scales its sum of squares by the square of the
factor. -/
theorem sumSq_vscale (c : ℝ) (v : List ℝ) : sumSq (vscale c v) = c ^ 2 * sumSq v := by
  induction v with
  | nil => simp [sumSq, vscale]
  | cons a t ih =>
    simp only [sumSq, vscale, List.map_cons, List.sum_cons] at ih ⊢
    rw [ih]
    ring

/-- Scaling a vector scales its Euclidean norm by the absolute value of
the factor. -/
theorem vnorm_vscale (c : ℝ) (v : List ℝ) : vnorm (vscale c v) = |c| * vnorm v := by
  rw [vnorm, sumSq_vscale, Real.sqrt_mul (sq_nonneg c), Real.sqrt_sq_eq_abs, vnorm]

/-- C7: with a positive epsilon guard, the squash non-linearity always
produces a vector of Euclidean norm in `[0, 1)`, and it maps the zero
vector to the zero vector (the clamped denominator never vanishes, so no
undefined division occurs). -/
theorem c7_squash_bounded_and_zero_to_zero (eps : ℝ) (heps : 0 < eps)
    (s : List ℝ) (d : ℕ) :
    0 ≤ vnorm (squash eps s)
      ∧ vnorm (squash eps s) < 1
      ∧ squash eps (List.replicate d 0) = List.replicate d 0 := by
  have hn : 0 ≤ vnorm s := Real.sqrt_nonneg _
  have hm : 0 < max (vnorm s) eps := lt_max_of_lt_right heps
  refine ⟨Real.sqrt_nonneg _, ?_, ?_⟩
  · rw [squash, vnorm_vscale]
    have h1 : (0 : ℝ) < 1 + vnorm s ^ 2 := by positivity
    have hc0 : 0 ≤ vnorm s ^ 2 / (1 + vnorm s ^ 2) / max (vnorm s) eps :=
      div_nonneg (div_nonneg (sq_nonneg _) h1.le) hm.le
    rw [abs_of_nonneg hc0]
    have key : vnorm s ^ 2 / (1 + vnorm s ^ 2) / max (vnorm s) eps * vnorm s
        = (vnorm s ^ 2 / (1 + vnorm s ^ 2)) * (vnorm s / max (vnorm s) eps) := by
      ring
    have hA : vnorm s ^ 2 / (1 + vnorm s ^ 2) < 1 := by
      rw [div_lt_one h1]
      linarith
    have hA0 : 0 ≤ vnorm s ^ 2 / (1 + vnorm s ^ 2) := div_nonneg (sq_nonneg _) h1.le
    have hB : vnorm s / max (vnorm s) eps ≤ 1 := by
      rw [div_le_one hm]
      exact le_max_left _ _
    have hB0 : 0 ≤ vnorm s / max (vnorm s) eps := div_nonneg hn hm.le
    calc vnorm s ^ 2 / (1 + vnorm s ^ 2) / max (vnorm s) eps * vnorm s
        = (vnorm s ^ 2 / (1 + vnorm s ^ 2)) * (vnorm s / max (vnorm s) eps) := key
      _ ≤ (vnorm s ^ 2 / (1 + vnorm s ^ 2)) * 1 := mul_le_mul_of_nonneg_left hB hA0
      _ < 1 := by rw [mul_one]; exact hA
  · rw [squash, vscale, List.map_replicate, mul_zero]

/-- C7 witness: at epsilon 1 and the concrete vectors `[0]` and the
two-entry zero vector, the squash bounds and the zero-to-zero property
hold. -/
theorem c7_squash_bounded_witness :
    0 ≤ vnorm (squash 1 [0])
      ∧ vnorm (squash 1 [0]) < 1
      ∧ squash 1 (List.replicate 2 0) = List.replicate 2 0 :=
  c7_squash_bounded_and_zero_to_zero 1 one_pos [0] 2

/-! ## Theorems: reconstruction masking and arg-max tie-break (C4) -/

/-- The arg-max index of a nonempty list is a valid index. -/
theorem argmaxIdx_lt_length {α : Type} [LinearOrder α] (l : List α) (h : l ≠ []) :
    argmaxIdx l < l.length := by
  induction l with
  | nil => exact absurd rfl h
  | cons a rest ih =>
    by_cases hr : rest = []
    · subst hr
      simp [argmaxIdx]
    · simp only [argmaxIdx, List.length_cons]
      split_ifs
      · exact Nat.succ_lt_succ (ih hr)
      · exact Nat.succ_pos _

/-- The arg-max index points at a maximal element, and every position
strictly before it holds a strictly smaller value (the first maximum
wins, i.e. ties resolve to the lowest index). -/
theorem argmaxIdx_first_max {α : Type} [LinearOrder α] (l : List α) (h : l ≠ []) (d : α) :
    (∀ k, k < l.length → l.getD k d ≤ l.getD (argmaxIdx l) d)
      ∧ (∀ k, k < argmaxIdx l → l.getD k d < l.getD (argmaxIdx l) d) := by
  induction l with
  | nil => exact absurd rfl h
  | cons a rest ih =>
    by_cases hr : rest = []
    · subst hr
      constructor
      · intro k hk
        have hk0 : k = 0 := by simpa using Nat.lt_one_iff.mp (by simpa using hk)
        subst hk0
        simp [argmaxIdx]
      · intro k hk
        simp [argmaxIdx] at hk
    · obtain ⟨ihmax, ihfirst⟩ := ih hr
      have hlt := argmaxIdx_lt_length rest hr
      have hgetD : rest.getD (argmaxIdx rest) a = rest.getD (argmaxIdx rest) d := by
        rw [List.getD_eq_getElem _ _ hlt, List.getD_eq_getElem _ _ hlt]
      simp only [argmaxIdx]
      split_ifs with hcase
      · rw [hgetD] at hcase
        constructor
        · intro k hk
          cases k with
          | zero =>
            simpa [List.getD_cons_zero, List.getD_cons_succ] using hcase.le
          | succ k2 =>
            simp only [List.getD_cons_succ]
            exact ihmax k2 (by simpa using hk)
        · intro k hk
          cases k with
          | zero =>
            simpa [List.getD_cons_zero, List.getD_cons_succ] using hcase
          | succ k2 =>
            simp only [List.getD_cons_succ]
            exact ihfirst k2 (Nat.lt_of_succ_lt_succ hk)
      · rw [hgetD] at hcase
        push_neg at hcase
        constructor
        · intro k hk
          cases k with
          | zero => simp
          | succ k2 =>
            simp only [List.getD_cons_succ, List.getD_cons_zero]
            exact le_trans (ihmax k2 (by simpa using hk)) hcase
        · intro k hk
          exact absurd hk (Nat.not_lt_zero k)

/-- A valid position of the one-hot row reads 1 at the selected index
and 0 elsewhere. -/
theorem oneHot_getD (K j k : ℕ) (hk : k < K) :
    (oneHot K j).getD k 0 = if k = j then (1 : ℝ) else 0 := by
  have h1 : k < (oneHot K j).length := by simp [oneHot, hk]
  rw [List.getD_eq_getElem _ _ h1]
  simp [oneHot]

/-- Entry `k` of the masked capsule tensor is capsule `k` scaled by the
selection weight `y[k]`. -/
theorem maskCaps_getD (y : List ℝ) (caps : List (List ℝ)) (k : ℕ)
    (hk : k < caps.length) (hk2 : k < y.length) :
    (maskCaps y caps).getD k [] = (caps.getD k []).map (fun v => v * y.getD k 0) := by
  have hlen : k < (maskCaps y caps).length := by
    simp only [maskCaps, List.length_map, List.length_zip]
    omega
  rw [List.getD_eq_getElem _ _ hlen, List.getD_eq_getElem _ _ hk,
    List.getD_eq_getElem _ _ hk2]
  simp [maskCaps]

/-- C4: the reconstruction mask selects exactly one class per example:
the arg-max of the predicted lengths is a valid class index, the one-hot
row is 1 there and 0 at every other class, the masked tensor keeps the
selected capsule unchanged and zeroes every other capsule, and ties in
predicted length resolve to the lowest class index (every earlier class
has a strictly smaller predicted length). -/
theorem c4_mask_one_class_argmax (p : List ℝ) (caps : List (List ℝ))
    (hp : p ≠ []) (hlen : caps.length = p.length) :
    argmaxIdx p < p.length
      ∧ (oneHot p.length (argmaxIdx p)).getD (argmaxIdx p) 0 = 1
      ∧ (∀ k, k < p.length → k ≠ argmaxIdx p →
          (oneHot p.length (argmaxIdx p)).getD k 0 = 0)
      ∧ (maskCaps (oneHot p.length (argmaxIdx p)) caps).getD (argmaxIdx p) []
          = caps.getD (argmaxIdx p) []
      ∧ (∀ k, k < p.length → k ≠ argmaxIdx p →
          (maskCaps (oneHot p.length (argmaxIdx p)) caps).getD k []
            = (caps.getD k []).map (fun _ => (0 : ℝ)))
      ∧ (∀ k, k < p.length → p.getD k 0 ≤ p.getD (argmaxIdx p) 0)
      ∧ (∀ k, k < argmaxIdx p → p.getD k 0 < p.getD (argmaxIdx p) 0) := by
  have hj := argmaxIdx_lt_length p hp
  have honehot : (oneHot p.length (argmaxIdx p)).length = p.length := by
    simp [oneHot]
  obtain ⟨hmax, hfirst⟩ := argmaxIdx_first_max p hp 0
  refine ⟨hj, ?_, ?_, ?_, ?_, hmax, hfirst⟩
  · rw [oneHot_getD _ _ _ hj]
    simp
  · intro k hk hne
    rw [oneHot_getD _ _ _ hk]
    simp [hne]
  · rw [maskCaps_getD _ _ _ (by rw [hlen]; exact hj) (by rw [honehot]; exact hj),
      oneHot_getD _ _ _ hj]
    simp
  · intro k hk hne
    rw [maskCaps_getD _ _ _ (by rw [hlen]; exact hk) (by rw [honehot]; exact hk),
      oneHot_getD _ _ _ hk]
    simp [hne]

/-- C4 witness: at the concrete predicted-length row `[1, 1]` (a tie)
and capsules `[[2], [3]]`, the mask selects exactly class 0, the lowest
index of the tied maximum. -/
theorem c4_mask_one_class_argmax_witness :
    argmaxIdx [(1 : ℝ), 1] < [(1 : ℝ), 1].length
      ∧ (oneHot [(1 : ℝ), 1].length (argmaxIdx [(1 : ℝ), 1])).getD (argmaxIdx [(1 : ℝ), 1]) 0 = 1
      ∧ (∀ k, k < [(1 : ℝ), 1].length → k ≠ argmaxIdx [(1 : ℝ), 1] →
          (oneHot [(1 : ℝ), 1].length (argmaxIdx [(1 : ℝ), 1])).getD k 0 = 0)
      ∧ (maskCaps (oneHot [(1 : ℝ), 1].length (argmaxIdx [(1 : ℝ), 1])) [[2], [3]]).getD (argmaxIdx [(1 : ℝ), 1]) []
          = [[(2 : ℝ)], [3]].getD (argmaxIdx [(1 : ℝ), 1]) []
      ∧ (∀ k, k < [(1 : ℝ), 1].length → k ≠ argmaxIdx [(1 : ℝ), 1] →
          (maskCaps (oneHot [(1 : ℝ), 1].length (argmaxIdx [(1 : ℝ), 1])) [[2], [3]]).getD k []
            = ([[(2 : ℝ)], [3]].getD k []).map (fun _ => (0 : ℝ)))
      ∧ (∀ k, k < [(1 : ℝ), 1].length → [(1 : ℝ), 1].getD k 0 ≤ [(1 : ℝ), 1].getD (argmaxIdx [(1 : ℝ), 1]) 0)
      ∧ (∀ k, k < argmaxIdx [(1 : ℝ), 1] → [(1 : ℝ), 1].getD k 0 < [(1 : ℝ), 1].getD (argmaxIdx [(1 : ℝ), 1]) 0) :=
  c4_mask_one_class_argmax [(1 : ℝ), 1] [[2], [3]] (by simp) (by simp)

/-! ## Theorems: forward determinism (C6) -/

/-- C6: the forward pass is a pure function of the learned parameters
and the input: two calls with equal parameters, equal inputs and the
same (fixed) iteration count return identical outputs.  The embedding
contains no source of randomness, mirroring the code, whose forward path
(convolution, primary capsules, routing, masking, decoding) calls no
random-number generator. -/
theorem c6_forward_deterministic {Img : Type} (net1 net2 : CapsuleNetM Img)
    (x1 x2 : List Img) (h1 : net1 = net2) (h2 : x1 = x2) :
    net1.forward x1 = net2.forward x2 := by
  rw [h1, h2]

/-- C6 witness: two identical calls on the sample network coincide. -/
theorem c6_forward_deterministic_witness :
    sampleNet.forward [()] = sampleNet.forward [()] :=
  c6_forward_deterministic sampleNet sampleNet [()] [()] rfl rfl

/-! ## Theorems: shape and structure of the full forward pass (C5) -/

/-- Squashing preserves the vector dimension. -/
theorem squash_length (eps : ℝ) (s : List ℝ) : (squash eps s).length = s.length := by
  simp [squash, vscale]

/-- Folding vector addition over vectors of the accumulator's length
preserves that length. -/
theorem foldl_vadd_length (L : List (List ℝ)) (acc : List ℝ)
    (h : ∀ v ∈ L, v.length = acc.length) : (L.foldl vadd acc).length = acc.length := by
  induction L generalizing acc with
  | nil => rfl
  | cons v t ih =>
    have hv : (vadd acc v).length = acc.length := by
      have := h v (List.mem_cons_self v t)
      simp [vadd, this]
    simp only [List.foldl_cons]
    rw [ih (vadd acc v) ?_, hv]
    intro w hw
    rw [hv]
    exact h w (List.mem_cons_of_mem v hw)

/-- One routing iteration produces `outCaps` capsules of dimension
`outDim`, provided the prediction vectors have dimension `outDim`. -/
theorem routeOnce_shape (uhat : List (List (List ℝ))) (outCaps outDim : ℕ)
    (eps : ℝ) (blog : List (List ℝ))
    (huhat : ∀ u ∈ uhat, ∀ j, j < outCaps → (u.getD j []).length = outDim) :
    (routeOnce uhat outCaps outDim eps blog).length = outCaps
      ∧ ∀ r ∈ routeOnce uhat outCaps outDim eps blog, r.length = outDim := by
  constructor
  · simp [routeOnce]
  · intro r hr
    simp only [routeOnce, List.mem_map, List.mem_range] at hr
    obtain ⟨svec, ⟨j, hj, hsvec⟩, hrr⟩ := hr
    rw [← hrr, squash_length, ← hsvec]
    rw [foldl_vadd_length]
    · simp
    · intro v hv
      simp only [List.mem_map] at hv
      obtain ⟨pq, hpq, hvv⟩ := hv
      have h2 : pq.2 ∈ uhat := (List.of_mem_zip hpq).2
      rw [← hvv]
      simp only [vscale, List.length_map, List.length_replicate]
      exact huhat pq.2 h2 j hj

/-- The routing loop keeps the output shape of a single iteration for
every positive iteration count. -/
theorem routingIters_shape (uhat : List (List (List ℝ))) (outCaps outDim : ℕ)
    (eps : ℝ)
    (huhat : ∀ u ∈ uhat, ∀ j, j < outCaps → (u.getD j []).length = outDim) :
    ∀ n, 1 ≤ n → ∀ blog,
      (routingIters uhat outCaps outDim eps n blog).length = outCaps
        ∧ ∀ r ∈ routingIters uhat outCaps outDim eps n blog, r.length = outDim := by
  intro n
  induction n with
  | zero => omega
  | succ m ih =>
    intro _ blog
    cases m with
    | zero =>
      simp only [routingIters]
      exact routeOnce_shape uhat outCaps outDim eps blog huhat
    | succ m2 =>
      simp only [routingIters]
      exact ih (by omega) _

/-- The forward pass of one routing layer returns `outCaps` capsules of
dimension `outDim` whenever the configured iteration count is at least
one (spec 4.3 shape contract). -/
theorem routingForward_shape (W : ℕ → ℕ → ℕ → ℕ → ℝ) (outCaps outDim numRouting : ℕ)
    (eps : ℝ) (x : List (List ℝ)) (h : 1 ≤ numRouting) :
    (routingForward W outCaps outDim numRouting eps x).length = outCaps
      ∧ ∀ r ∈ routingForward W outCaps outDim numRouting eps x, r.length = outDim := by
  apply routingIters_shape
  · intro u hu j hj
    simp only [List.mem_map] at hu
    obtain ⟨pq, _, hpq⟩ := hu
    rw [← hpq]
    have hj2 : j < ((List.range outCaps).map
        (fun j2 => matVec (W j2 pq.1) outDim pq.2)).length := by
      simp [hj]
    rw [List.getD_eq_getElem _ _ hj2]
    simp [matVec]
  · exact h

/-- The fold collecting each step's output into an accumulator list
returns the composite value together with the list of all prefix
applications, in order. -/
theorem foldl_apply_collect {α β : Type} (g : β → α → α) :
    ∀ (ws : List β) (t : α) (acc : List α),
      ws.foldl (fun p w => (g w p.1, p.2 ++ [g w p.1])) (t, acc)
        = ((ws.map g).foldl (fun a f => f a) t,
           acc ++ (List.range ws.length).map
             (fun i => ((ws.take (i + 1)).map g).foldl (fun a f => f a) t)) := by
  intro ws
  induction ws with
  | nil =>
    intro t acc
    simp
  | cons w ws ih =>
    intro t acc
    simp only [List.foldl_cons]
    rw [ih (g w t) (acc ++ [g w t])]
    simp only [Prod.mk.injEq, List.map_cons, List.foldl_cons, List.length_cons]
    constructor
    · trivial
    · rw [List.range_succ_eq_map]
      simp only [List.map_cons, List.map_map, List.take_succ_cons, List.append_assoc,
        List.singleton_append, List.take_zero, List.map_nil, List.foldl_nil,
        List.foldl_cons, Function.comp]
      rfl

/-- Each block application preserves the batch size, hence so does the
whole block stack. -/
theorem blocks_foldl_length {Img : Type} (net : CapsuleNetM Img)
    (ws : List ((ℕ → ℕ → ℕ → ℕ → ℝ) × (ℕ → ℕ → ℕ → ℕ → ℝ)))
    (t : List (List (List ℝ))) :
    ((ws.map net.blockFun).foldl (fun a f => f a) t).length = t.length := by
  induction ws generalizing t with
  | nil => rfl
  | cons w ws ih =>
    simp only [List.map_cons, List.foldl_cons]
    rw [ih]
    simp [CapsuleNetM.blockFun]

/-- C5: the forward pass returns the triple
`(class_scores, reconstructions, layers)` in which the class scores are
the Euclidean norms of the final capsules (one row per example, one
entry per class), the reconstructions have one row per example of size
`prod imgShape`, and the intermediate list holds exactly one entry per
residual block, in block order (entry `i` is the output of the first
`i+1` blocks applied to the stage-1 capsules). -/
theorem c5_forward_triple {Img : Type} (net : CapsuleNetM Img) (x : List Img)
    (hr : 1 ≤ net.numRouting) :
    (net.forward x).1 = (net.caps2Out x).map (fun caps => caps.map vnorm)
      ∧ (net.forward x).1.length = x.length
      ∧ (∀ row ∈ (net.forward x).1, row.length = net.numClasses)
      ∧ (net.forward x).2.1.length = x.length
      ∧ (∀ r ∈ (net.forward x).2.1, r.length = net.imgShape.prod)
      ∧ (net.forward x).2.2.length = net.blocksW.length
      ∧ (net.forward x).2.2 = (List.range net.blocksW.length).map
          (fun i => ((net.blocksW.take (i + 1)).map net.blockFun).foldl
            (fun a f => f a) (net.caps1Out x)) := by
  have hcollect := foldl_apply_collect net.blockFun net.blocksW (net.caps1Out x) []
  have hrun1 : (net.blocksRun x).1
      = (net.blocksW.map net.blockFun).foldl (fun a f => f a) (net.caps1Out x) := by
    rw [CapsuleNetM.blocksRun, hcollect]
  have hrun2 : (net.blocksRun x).2 = (List.range net.blocksW.length).map
      (fun i => ((net.blocksW.take (i + 1)).map net.blockFun).foldl
        (fun a f => f a) (net.caps1Out x)) := by
    rw [CapsuleNetM.blocksRun, hcollect]
    simp
  have hstem : (net.caps1Out x).length = x.length := by
    simp [CapsuleNetM.caps1Out]
  have hcaps2len : (net.caps2Out x).length = x.length := by
    rw [CapsuleNetM.caps2Out, List.length_map, hrun1, blocks_foldl_length, hstem]
  have hpredslen : (net.predsOut x).length = x.length := by
    rw [CapsuleNetM.predsOut, List.length_map, hcaps2len]
  refine ⟨rfl, hpredslen, ?_, ?_, ?_, ?_, ?_⟩
  · intro row hrow
    simp only [CapsuleNetM.forward, CapsuleNetM.predsOut, List.mem_map] at hrow
    obtain ⟨caps, hcaps, hrr⟩ := hrow
    rw [← hrr, List.length_map]
    simp only [CapsuleNetM.caps2Out, List.mem_map] at hcaps
    obtain ⟨t, _, hcaps2⟩ := hcaps
    rw [← hcaps2]
    exact (routingForward_shape net.caps2W net.numClasses net.outDim
      net.numRouting net.eps t hr).1
  · simp only [CapsuleNetM.forward, CapsuleNetM.reconOut]
    rw [List.length_map, List.length_zip, hpredslen, hcaps2len, min_self]
  · intro r hrec
    simp only [CapsuleNetM.forward, CapsuleNetM.reconOut, List.mem_map] at hrec
    obtain ⟨pq, _, hrr⟩ := hrec
    rw [← hrr]
    simp [decoderForward, linearMap]
  · rw [CapsuleNetM.forward, hrun2, List.length_map, List.length_range]
  · exact hrun2

/-- C5 witness: on the sample network (one routing iteration) and a
one-element batch, the forward pass satisfies the full output contract. -/
theorem c5_forward_triple_witness :
    (sampleNet.forward [()]).1 = (sampleNet.caps2Out [()]).map (fun caps => caps.map vnorm)
      ∧ (sampleNet.forward [()]).1.length = [()].length
      ∧ (∀ row ∈ (sampleNet.forward [()]).1, row.length = sampleNet.numClasses)
      ∧ (sampleNet.forward [()]).2.1.length = [()].length
      ∧ (∀ r ∈ (sampleNet.forward [()]).2.1, r.length = sampleNet.imgShape.prod)
      ∧ (sampleNet.forward [()]).2.2.length = sampleNet.blocksW.length
      ∧ (sampleNet.forward [()]).2.2 = (List.range sampleNet.blocksW.length).map
          (fun i => ((sampleNet.blocksW.take (i + 1)).map sampleNet.blockFun).foldl
            (fun a f => f a) (sampleNet.caps1Out [()])) :=
  c5_forward_triple sampleNet [()] (Nat.le_refl 1)
